import Mathlib

/-!
# Verification of the `stdlib` error model (`errors.go`)

Shallow embedding of the `Error` / `ErrorGroup` / `errorChain` subsystem of
the `ahawker/stdlib` Go repository, together with proofs settling the
specification claims about it.

Modelling conventions:

* Go `error` interface values are modelled by the inductive `GoError`:
  an `Error` struct value, a non-nil `*ErrorGroup` pointer, an `errorChain`
  slice value, or an opaque external error (`generic`, e.g. the result of
  `fmt.Errorf` / `errors.New` without a `%w` verb: no `Is`/`As`/`Unwrap`
  methods).  A nil Go `error` is `Option.none` at the use sites where the
  source can receive nil (`Wrap`, `Append`, translation results).
* Pointer identity of heap-allocated values (`*errorString`, `*ErrorGroup`),
  which Go's `errors.Is` compares with `==`, is modelled by a `Nat`
  allocation id carried by the corresponding constructors.
* `time.Duration` is an `Int` (Go `int64` nanoseconds; no arithmetic is
  performed on it here, so overflow does not arise).
* Functions that can panic in Go return `Option`, with `none` for a panic.
-/

namespace Stdlib

/-- `Link` contains a description and hyperlink (`errors.go`, `type Link`). -/
structure Link where
  URL : String
  Description : String
deriving DecidableEq

/-- `DebugExtras` contains helpful information for debugging the error
(`errors.go`, `type DebugExtras`). -/
structure DebugExtras where
  StackTrace : String
deriving DecidableEq

/-- `HelpExtras` contains helpful hyperlinks for the error
(`errors.go`, `type HelpExtras`). -/
structure HelpExtras where
  Links : List Link
deriving DecidableEq

/-- `RetryExtras` contains information dictating how/why retries can happen
(`errors.go`, `type RetryExtras`).  `Delay` is a Go `time.Duration` (int64). -/
structure RetryExtras where
  Delay : Int
deriving DecidableEq

/-- `ErrorExtras` contains common additional info attached to errors
(`errors.go`, `type ErrorExtras`). -/
structure ErrorExtras where
  Debug : DebugExtras
  Help : HelpExtras
  Retry : RetryExtras
  Tags : List String
deriving DecidableEq

/-- `WithTag` returns a new copy of the `ErrorExtras` with the given tags
appended (`errors.go`, `func (e ErrorExtras) WithTag`). -/
def ErrorExtras.WithTag (e : ErrorExtras) (tags : List String) : ErrorExtras :=
  { Debug := e.Debug, Help := e.Help, Retry := e.Retry, Tags := e.Tags ++ tags }

/-- Modelled from the spec: the `Bitmask` type is not part of the provided
source files (only its use sites are).  Per the spec ("set of independent
boolean attributes packed into one integer, queried via bit tests") it is a
machine integer; only its equality is exercised by the claims, so it is a
`Nat`. -/
abbrev Bitmask := Nat

/-- `ErrorFlagUnknown` (`errors.go` const block).  Note: in that Go `const`
block `ErrorNamespaceDefault` occupies `iota = 0`, so the flag constants
start at `1 << 1`. -/
def ErrorFlagUnknown : Bitmask := 2

/-- `ErrorFlagRetryable` (`errors.go` const block, `1 << 2`). -/
def ErrorFlagRetryable : Bitmask := 4

/-- `ErrorFlagTimeout` (`errors.go` const block, `1 << 3`). -/
def ErrorFlagTimeout : Bitmask := 8

/-- `ErrorNamespaceDefault` is the default namespace for errors generated by
the package (`errors.go`). -/
def ErrorNamespaceDefault : String := "stdlibx-go"

mutual

/-- The `Error` struct (`errors.go`, `type Error`): fields `Code`, `Extras`,
`Flags`, `Message`, `Namespace`, `Wrapped` (an optional wrapped Go error). -/
inductive Error where
  | mk (Code : String) (Extras : ErrorExtras) (Flags : Bitmask)
       (Message : String) (Namespace : String) (Wrapped : Option GoError) : Error

/-- A non-nil Go `error` interface value, as far as this package can observe
one: an `Error` struct value, a non-nil `*ErrorGroup` (allocation id +
`Errors` field; the `Formatter` field of groups reachable as causes is
modelled as the default formatter installed by `NewErrorGroup`), an
`errorChain` slice, or an opaque external error (allocation id + message,
no `Is`/`As`/`Unwrap` methods). -/
inductive GoError where
  | ofError (e : Error) : GoError
  | ofGroup (id : Nat) (errs : List Error) : GoError
  | ofChain (errs : List Error) : GoError
  | generic (id : Nat) (msg : String) : GoError

end

/-- Field accessor for `Error.Code`. -/
def Error.Code : Error → String
  | .mk c _ _ _ _ _ => c

/-- Field accessor for `Error.Extras`. -/
def Error.Extras : Error → ErrorExtras
  | .mk _ x _ _ _ _ => x

/-- Field accessor for `Error.Flags`. -/
def Error.Flags : Error → Bitmask
  | .mk _ _ f _ _ _ => f

/-- Field accessor for `Error.Message`. -/
def Error.Message : Error → String
  | .mk _ _ _ m _ _ => m

/-- Field accessor for `Error.Namespace`. -/
def Error.Namespace : Error → String
  | .mk _ _ _ _ n _ => n

/-- Field accessor for `Error.Wrapped`. -/
def Error.Wrapped : Error → Option GoError
  | .mk _ _ _ _ _ w => w

/-- The Go struct literal `Error{Code: e.Code, Extras: e.Extras, Flags:
e.Flags, Message: e.Message, Namespace: e.Namespace, Wrapped: w}` used by
`Wrap`/`Copy`/`With*`: all fields of `e` copied verbatim except `Wrapped`. -/
def Error.withWrapped : Error → Option GoError → Error
  | .mk c x f m n _, w => .mk c x f m n w

/-- `Equal` returns true if the two `Error` values are equal (`errors.go`,
`func (e Error) Equal`): compares `Code`, `Message`, `Namespace`, `Flags` and
deep equality of `Extras.Debug` / `Extras.Help` / `Extras.Retry`.  `Tags`
and `Wrapped` are not compared. -/
def Error.Equal (e e2 : Error) : Bool :=
  e.Code == e2.Code &&
  e.Message == e2.Message &&
  e.Namespace == e2.Namespace &&
  e.Flags == e2.Flags &&
  e.Extras.Debug == e2.Extras.Debug &&
  e.Extras.Help == e2.Extras.Help &&
  e.Extras.Retry == e2.Extras.Retry

/-- `IsZero` (`errors.go`, `func (e Error) IsZero`): the source computes
`reflect.DeepEqual(e, new(Error))`.  `e` is an `Error` value while
`new(Error)` is a `*Error` pointer; `reflect.DeepEqual` returns `false`
whenever the two arguments have distinct dynamic types, so this method
returns `false` for every receiver, including the zero value. -/
def Error.IsZero (_ : Error) : Bool :=
  false

/-- `WithTag` returns a new copy of the `Error` with the given tags added
(`errors.go`, `func (e Error) WithTag`). -/
def Error.WithTag (e : Error) (tags : List String) : Error :=
  match e with
  | .mk c x f m n w => .mk c (x.WithTag tags) f m n w

/-- `ErrUndefined` indicates the wrapped error is not well-known or
previously defined (`errors.go`, `var ErrUndefined`). -/
def ErrUndefined : Error :=
  .mk "undefined" ⟨⟨""⟩, ⟨[]⟩, ⟨0⟩, []⟩ ErrorFlagUnknown
    "wrapped the following error which is not well-defined" ErrorNamespaceDefault none

/-- `errors.As(err, &target)` for a target of type `Error`, evaluated on the
error values this package can produce.  Go's `errors.As` walk:

* an `Error` value matches immediately (dynamic type equals the target type);
* a `*ErrorGroup` does not match and has no `As` method; its `Unwrap`
  yields nil (empty), the single element (an `Error`, matching), or an
  `errorChain` over the elements whose `As` method matches the head —
  in every case the result is the head element, if any;
* an `errorChain` has an `As` method delegating to `errors.As` on the
  element at index 0 (an `Error`, matching); an empty chain fails `As` and
  its `Unwrap` is nil — again the head element, if any;
* an opaque external error has no `As`/`Unwrap`: no match. -/
def errAsError : GoError → Option Error
  | .ofError e => some e
  | .ofGroup _ errs => errs.head?
  | .ofChain errs => errs.head?
  | .generic _ _ => none

/-- `errors.As(err, &target)` for a target of type `*ErrorGroup`, evaluated
on the error values this package can produce.  Go's `errors.As` walk:

* a `*ErrorGroup` matches immediately;
* an `Error` value does not match and has no `As` method; `Unwrap` returns
  its `Wrapped` field and the walk continues there (or fails at nil);
* an `errorChain`'s `As` method delegates to `errors.As` on the head
  element; on failure the walk continues with `Unwrap`, which is nil for
  chains of length ≤ 1 and the tail chain otherwise;
* an opaque external error: no match. -/
def errAsGroup : GoError → Option (List Error)
  | .ofGroup _ errs => some errs
  | .ofError (.mk _ _ _ _ _ none) => none
  | .ofError (.mk _ _ _ _ _ (some w)) => errAsGroup w
  | .ofChain [] => none
  | .ofChain [e] => errAsGroup (.ofError e)
  | .ofChain (e :: e2 :: rest) =>
    match errAsGroup (.ofError e) with
    | some g => some g
    | none => errAsGroup (.ofChain (e2 :: rest))
  | .generic _ _ => none
termination_by err => sizeOf err
decreasing_by all_goals simp_wf <;> omega

/-- `Copy` returns a full copy of this `Error`, including copies of all
wrapped errors within (`errors.go`, `func (e Error) Copy`): when the wrapped
cause is present and `errors.As` extracts an `Error` from it, the copy wraps
a recursive copy of the extracted `Error`; otherwise all fields, including
the `Wrapped` reference, are copied verbatim. -/
def Error.Copy (e : Error) : Error :=
  match e with
  | .mk c x f m n (some w) =>
    match h : errAsError w with
    | some inner => .mk c x f m n (some (.ofError inner.Copy))
    | none => .mk c x f m n (some w)
  | .mk c x f m n none => .mk c x f m n none
termination_by sizeOf e
decreasing_by
  have hlt : sizeOf inner < sizeOf w := by
    cases w with
    | ofError e0 => simp [errAsError] at h; subst h; simp
    | ofGroup id errs =>
      cases errs with
      | nil => simp [errAsError] at h
      | cons a t => simp [errAsError] at h; subst h; simp; omega
    | ofChain errs =>
      cases errs with
      | nil => simp [errAsError] at h
      | cons a t => simp [errAsError] at h; subst h; simp; omega
    | generic id msg => simp [errAsError] at h
  simp_wf <;> omega

/-- `Wrap` returns a new `Error` with the given err wrapped (`errors.go`,
`func (e Error) Wrap`): nil input returns the receiver unchanged; a zero
receiver adopts a deep copy of an `Error` extracted from the input (an arm
that is unreachable in the compiled source, see `Error.IsZero`, but spelled
out faithfully); otherwise a new `Error` with identical fields and `Wrapped`
set to the input. -/
def Error.Wrap (e : Error) (err : Option GoError) : Error :=
  match err with
  | none => e
  | some w =>
    if e.IsZero then
      match errAsError w with
      | some e2 => e2.Copy
      | none => e.withWrapped (some w)
    else e.withWrapped (some w)

/-- `Unwrap` implements error unwrapping for nested errors (`errors.go`,
`func (e Error) Unwrap`): returns the `Wrapped` field. -/
def Error.Unwrap (e : Error) : Option GoError :=
  e.Wrapped


/-- Modelled from the spec: `SliceTypeAssert[Error, error]` is not part of
the provided source files.  Per the spec it narrows/boxes each element of a
sequence to a target type, a conversion that "always succeeds because the
source sequence is already typed": applied at its one call site to the
`[]Error` elements of a nested group, it re-boxes every `Error` as a Go
`error` interface value. -/
def SliceTypeAssert (errs : List Error) : List GoError :=
  errs.map .ofError

mutual

/-- One iteration of the loop body of `ErrorGroup.Append` (`errors.go`,
`func (g *ErrorGroup) Append`) on a non-nil error `err`, acting on the
group's `Errors` field `acc`: if `errors.As` finds a `*ErrorGroup` in `err`,
its elements are flattened in (the recursive `g.Append(SliceTypeAssert[Error,
error](eg.Errors)...)` call, see `ErrorGroup.appendErrors`); otherwise the
`Error` extracted by `errors.As` — or, failing that, `ErrUndefined.Wrap(err)`
— is appended unless it `IsZero`. -/
def ErrorGroup.appendOne (acc : List Error) (err : GoError) : List Error :=
  match h : errAsGroup err with
  | some ges => ErrorGroup.appendErrors acc ges
  | none =>
    let e :=
      match errAsError err with
      | some e => e
      | none => ErrUndefined.Wrap (some err)
    if e.IsZero then acc else acc ++ [e]
termination_by sizeOf err
decreasing_by
  have key : ∀ {err2 : GoError} {ges2 : List Error}, errAsGroup err2 = some ges2 →
      sizeOf ges2 < sizeOf err2 := by
    intro err2
    induction err2 using errAsGroup.induct with
    | case1 id errs =>
        intro ges2 hg; simp [errAsGroup] at hg; subst hg; simp
    | case2 c x f m n =>
        intro ges2 hg; simp [errAsGroup] at hg
    | case3 c x f m n w ih =>
        intro ges2 hg; simp [errAsGroup] at hg
        have hw := ih hg
        simp; omega
    | case4 =>
        intro ges2 hg; simp [errAsGroup] at hg
    | case5 e ih =>
        intro ges2 hg; simp [errAsGroup] at hg
        have hw := ih hg
        simp at hw ⊢; omega
    | case6 e e2 rest g hsome ih =>
        intro ges2 hg
        simp [errAsGroup, hsome] at hg
        subst hg
        have hw := ih hsome
        simp at hw ⊢; omega
    | case7 e e2 rest hnone ih1 ih2 =>
        intro ges2 hg
        simp [errAsGroup, hnone] at hg
        have hw := ih2 hg
        simp at hw ⊢; omega
    | case8 id msg =>
        intro ges2 hg; simp [errAsGroup] at hg
  exact key h

/-- The recursive `g.Append(SliceTypeAssert[Error, error](eg.Errors)...)`
call inside `ErrorGroup.Append`: the `Append` loop body iterated over the
nested group's elements, each re-boxed as a (never nil) Go `error`
interface value. -/
def ErrorGroup.appendErrors (acc : List Error) (ges : List Error) : List Error :=
  match ges with
  | [] => acc
  | e :: rest => ErrorGroup.appendErrors (ErrorGroup.appendOne acc (.ofError e)) rest
termination_by sizeOf ges
decreasing_by
  all_goals simp_wf
  all_goals (cases rest <;> simp_arith)

end

/-- `Append` adds new errors to the group (`errors.go`,
`func (g *ErrorGroup) Append`), modelled as a function from the group's
`Errors` field to its value after the call; nil arguments are skipped. -/
def ErrorGroup.Append (acc : List Error) (errs : List (Option GoError)) : List Error :=
  match errs with
  | [] => acc
  | none :: rest => ErrorGroup.Append acc rest
  | some err :: rest => ErrorGroup.Append (ErrorGroup.appendOne acc err) rest

/-- The loop of `Error.AsGroup` (`errors.go`, `func (e Error) AsGroup`):
while the current error has a wrapped cause, append that cause to the group
and step to the `Error` that `errors.As` extracts from it, stopping when
extraction fails. -/
def Error.asGroupLoop (g : List Error) (err : Error) : List Error :=
  match err with
  | .mk _ _ _ _ _ none => g
  | .mk _ _ _ _ _ (some w) =>
    let g2 := ErrorGroup.appendOne g w
    match h : errAsError w with
    | none => g2
    | some we => Error.asGroupLoop g2 we
termination_by sizeOf err
decreasing_by
  have hlt : sizeOf we < sizeOf w := by
    cases w with
    | ofError e0 => simp [errAsError] at h; subst h; simp
    | ofGroup id errs =>
      cases errs with
      | nil => simp [errAsError] at h
      | cons a t => simp [errAsError] at h; subst h; simp; omega
    | ofChain errs =>
      cases errs with
      | nil => simp [errAsError] at h
      | cons a t => simp [errAsError] at h; subst h; simp; omega
    | generic id msg => simp [errAsError] at h
  simp_wf <;> omega

/-- `AsGroup` returns an `ErrorGroup` containing this error and all wrapped
errors it contains (`errors.go`, `func (e Error) AsGroup`), modelled by the
`Errors` field of the returned group (`NewErrorGroup(e)` starts from an
empty group with the default formatter and appends `e`). -/
def Error.AsGroup (e : Error) : List Error :=
  Error.asGroupLoop (ErrorGroup.appendOne [] (.ofError e)) e

mutual

/-- `Error` returns the string representation of the `Error` (`errors.go`,
`func (e Error) Error`): `"[namespace:code] message"`, with a wrapped cause
appended on a new line prefixed `"-> "` via the cause's own `Error()`. -/
def Error.errStr : Error → String
  | .mk c _ _ m n w =>
    "[" ++ n ++ ":" ++ c ++ "] " ++ m ++
      (match w with
       | some v => "\n-> " ++ GoError.errStr v
       | none => "")

/-- The `Error()` method of a Go `error` interface value, for each dynamic
type this package can observe: `Error.Error`, an opaque error's message,
`errorChain.Error` (empty string for an empty chain, else the head's
string), or `ErrorGroup.Error` (the group's formatter over its elements;
groups reachable as wrapped causes are modelled with the default formatter
installed by `NewErrorGroup`). -/
def GoError.errStr : GoError → String
  | .ofError e => Error.errStr e
  | .generic _ msg => msg
  | .ofChain [] => ""
  | .ofChain (e :: _) => Error.errStr e
  | .ofGroup _ [] => ""
  | .ofGroup _ [e] => Error.errStr e
  | .ofGroup _ (e :: e2 :: rest) => "\n" ++ errPoints (e :: e2 :: rest) ++ "\n\n"

/-- `strings.Join(points, "\n")` where `points[i] = fmt.Sprintf("* %s",
errors[i])`, as used by `ErrorGroupFormatterDefault` (`errors.go`). -/
def errPoints : List Error → String
  | [] => ""
  | [e] => "* " ++ Error.errStr e
  | e :: e2 :: rest => "* " ++ Error.errStr e ++ "\n" ++ errPoints (e2 :: rest)

end

/-- `ErrorGroupFormatterDefault` (`errors.go`): empty string for zero
errors, the error's own string for one, and a bullet-point list wrapped in
blank lines otherwise. -/
def ErrorGroupFormatterDefault (errors : List Error) : String :=
  match errors with
  | [] => ""
  | [e] => Error.errStr e
  | e :: e2 :: rest => "\n" ++ errPoints (e :: e2 :: rest) ++ "\n\n"

/-- The state of a (non-nil) `*ErrorGroup` (`errors.go`, `type ErrorGroup`):
the `Errors` slice and the pluggable `Formatter`. -/
structure ErrorGroupS where
  Errors : List Error
  Formatter : List Error → String

/-- A possibly-nil `*ErrorGroup` receiver. -/
abbrev ErrorGroupRef := Option ErrorGroupS

/-- `Empty` returns true if the group is empty (`errors.go`,
`func (g *ErrorGroup) Empty`); nil-receiver safe.  A nil and an empty
`Errors` slice both have length 0, collapsing to `List.isEmpty` here. -/
def ErrorGroup.Empty : ErrorGroupRef → Bool
  | none => true
  | some g => g.Errors.isEmpty

/-- `ErrorOrNil` returns the group as a (non-nil) error if it holds one or
more errors, and nil otherwise (`errors.go`,
`func (g *ErrorGroup) ErrorOrNil`); nil-receiver safe. -/
def ErrorGroup.ErrorOrNil : ErrorGroupRef → ErrorGroupRef
  | none => none
  | some g => if g.Errors.isEmpty then none else some g

/-- `Error` string value of the `ErrorGroup` (`errors.go`,
`func (g *ErrorGroup) Error`): `g.Formatter(g.Errors)`.  The receiver is
dereferenced without a nil check, so a nil receiver panics (`none`). -/
def ErrorGroup.ErrorString : ErrorGroupRef → Option String
  | none => none
  | some g => some (g.Formatter g.Errors)

/-- `Unwrap` returns the next error in the group (`errors.go`,
`func (g *ErrorGroup) Unwrap`): nil for a nil or empty group, the single
element itself for a one-element group, and an `errorChain` over a shallow
copy of the `Errors` slice otherwise (the copy is a snapshot: in this value
model, list values are immutable, so snapshotting is implicit). -/
def ErrorGroup.Unwrap : ErrorGroupRef → Option GoError
  | none => none
  | some g =>
    match g.Errors with
    | [] => none
    | [e] => some (.ofError e)
    | e :: e2 :: rest => some (.ofChain (e :: e2 :: rest))

/-- `errorChain.Unwrap` (`errors.go`, `func (e errorChain) Unwrap`): nil if
the chain has at most one element, else the chain shifted by one. -/
def errorChain.Unwrap : List Error → Option GoError
  | [] => none
  | [_] => none
  | _ :: e2 :: rest => some (.ofChain (e2 :: rest))

/-- `errorChain.Error` (`errors.go`, `func (e errorChain) Error`): empty
string for an empty chain, else the head element's string. -/
def errorChain.ErrorString : List Error → String
  | [] => ""
  | e :: _ => Error.errStr e

/-- Go interface comparability of the possible `errors.Is` targets:
`errors.Is` only attempts `err == target` when the target's dynamic type is
comparable.  `*errorString` and `*ErrorGroup` are pointers (comparable);
`Error` contains slice fields and `errorChain` is a slice (not
comparable). -/
def goComparable : GoError → Bool
  | .generic _ _ => true
  | .ofGroup _ _ => true
  | .ofError _ => false
  | .ofChain _ => false

/-- Go interface equality `err == target` for the comparable cases: values
of distinct dynamic types are unequal; pointers compare by identity
(allocation id). -/
def goEq : GoError → GoError → Bool
  | .generic i _, .generic j _ => i == j
  | .ofGroup i _, .ofGroup j _ => i == j
  | _, _ => false

/-- `Is` implements error equality checking (`errors.go`,
`func (e Error) Is`): succeeds iff `errors.As` can extract an `Error` from
the target and `Equal` holds. -/
def Error.Is (e : Error) (target : GoError) : Bool :=
  match errAsError target with
  | none => false
  | some err => e.Equal err

/-- `errors.Is(err, target)` evaluated on the error values this package can
observe.  Go's `errors.Is` loop: try `err == target` (only for comparable
targets), then the receiver's own `Is` method if it has one (`Error` and
`errorChain` do; `*ErrorGroup` and opaque errors do not), then unwrap one
level and repeat.  A `*ErrorGroup` with two or more elements unwraps to an
`errorChain` over the same elements; that chain step is inlined here (its
`==` comparison is vacuous: chains are never `==` to a comparable
target). -/
def goIs : GoError → GoError → Bool
  | .ofError (.mk c x f m n none), target =>
    (goComparable target && goEq (.ofError (.mk c x f m n none)) target) ||
    Error.Is (.mk c x f m n none) target
  | .ofError (.mk c x f m n (some w)), target =>
    (goComparable target && goEq (.ofError (.mk c x f m n (some w))) target) ||
    Error.Is (.mk c x f m n (some w)) target ||
    goIs w target
  | .ofChain [], target =>
    goComparable target && goEq (.ofChain []) target
  | .ofChain [e], target =>
    (goComparable target && goEq (.ofChain [e]) target) ||
    goIs (.ofError e) target
  | .ofChain (e :: e2 :: rest), target =>
    (goComparable target && goEq (.ofChain (e :: e2 :: rest)) target) ||
    goIs (.ofError e) target ||
    goIs (.ofChain (e2 :: rest)) target
  | .ofGroup i [], target =>
    goComparable target && goEq (.ofGroup i []) target
  | .ofGroup i [e], target =>
    (goComparable target && goEq (.ofGroup i [e]) target) ||
    goIs (.ofError e) target
  | .ofGroup i (e :: e2 :: rest), target =>
    (goComparable target && goEq (.ofGroup i (e :: e2 :: rest)) target) ||
    goIs (.ofError e) target ||
    goIs (.ofChain (e2 :: rest)) target
  | .generic i m, target =>
    goComparable target && goEq (.generic i m) target
termination_by err _ => sizeOf err
decreasing_by all_goals simp_wf <;> omega

/-- `errorChain.Is` (`errors.go`, `func (e errorChain) Is`): false for an
empty chain, else `errors.Is` of the element at index 0 against the
target. -/
def errorChain.Is : List Error → GoError → Bool
  | [], _ => false
  | e :: _, target => goIs (.ofError e) target

/-- `Translate` performs an in-place translation of the errors in the group
(`errors.go`, `func (g *ErrorGroup) Translate`), modelled as a function on
the `Errors` field: each element is replaced, at its index, by the `Error`
that `errors.As` extracts from `translate(element)`, or by
`ErrUndefined.Wrap(translate(element))` when extraction fails (including
when the translation returned nil). -/
def ErrorGroup.Translate (translate : Error → Option GoError) : List Error → List Error
  | [] => []
  | x :: rest =>
    (match translate x with
     | none => ErrUndefined.Wrap none
     | some t =>
       match errAsError t with
       | some e => e
       | none => ErrUndefined.Wrap (some t)) :: ErrorGroup.Translate translate rest

/-- The zero value of `ErrorExtras` (all fields at their Go defaults). -/
def zeroExtras : ErrorExtras :=
  ⟨⟨""⟩, ⟨[]⟩, ⟨0⟩, []⟩

/-- Statement scaffolding: the Go error value obtained by chaining the
payload fields of the given `Error` list link by link (each link's `Wrapped`
points at the next) down to the given terminal cause. -/
def nestChain : List Error → GoError → GoError
  | [], t => t
  | l :: ls, t => .ofError (l.withWrapped (some (nestChain ls t)))

/-- Statement scaffolding: the actual `Error` link values occurring along
`nestChain ls t`, in root-to-leaf order (each with its `Wrapped` field as it
occurs in the chain). -/
def chainLinks : List Error → GoError → List Error
  | [], _ => []
  | l :: ls, t => l.withWrapped (some (nestChain ls t)) :: chainLinks ls t

/-!
## Theorems

Helper lemmas shared between the claim theorems, followed by one theorem
per claim (with counterexamples and witnesses where applicable).
-/

/-- `errors.As` cannot extract a `*ErrorGroup` from a homogeneous `Error`
chain ending in an opaque terminal cause. -/
theorem errAsGroup_nestChain (ls : List Error) (id : Nat) (msg : String) :
    errAsGroup (nestChain ls (.generic id msg)) = none := by
  induction ls with
  | nil => simp [nestChain, errAsGroup]
  | cons l ls ih =>
    cases l with
    | mk c x f m n w =>
      simp [nestChain, Error.withWrapped, errAsGroup, ih]

/-- `Append`'s loop body on an `Error` interface value carrying no nested
group: the extracted `Error` is appended at the end (the `IsZero` skip never
fires, see `Error.IsZero`). -/
theorem appendOne_error (acc : List Error) (e : Error)
    (h : errAsGroup (.ofError e) = none) :
    ErrorGroup.appendOne acc (.ofError e) = acc ++ [e] := by
  simp only [ErrorGroup.appendOne]
  split
  · next ges hg =>
      rw [h] at hg
      exact Option.noConfusion hg
  · simp [errAsError, Error.IsZero]

/-- `Append`'s loop body on an opaque external error: the error is wrapped
under `ErrUndefined` and appended at the end. -/
theorem appendOne_generic (acc : List Error) (id : Nat) (msg : String) :
    ErrorGroup.appendOne acc (.generic id msg) =
      acc ++ [ErrUndefined.Wrap (some (.generic id msg))] := by
  simp only [ErrorGroup.appendOne]
  split
  · next ges hg =>
      simp [errAsGroup] at hg
  · simp [errAsError, Error.IsZero]

/-- `errors.As` for `*ErrorGroup` on a boxed `Error` searches exactly the
wrapped cause. -/
theorem errAsGroup_withWrapped (l : Error) (v : GoError) :
    errAsGroup (.ofError (l.withWrapped (some v))) = errAsGroup v := by
  cases l with
  | mk c x f m n w => simp [Error.withWrapped, errAsGroup]

/-- Computation rule for `Error.withWrapped` on an explicit constructor. -/
theorem withWrapped_mk (c : String) (x : ErrorExtras) (f : Bitmask)
    (m n : String) (w w2 : Option GoError) :
    (Error.mk c x f m n w).withWrapped w2 = Error.mk c x f m n w2 := rfl

/-- The `AsGroup` loop, run on a homogeneous `Error` chain ending in an
opaque terminal cause, appends every link after the root in order and then
the terminal cause wrapped under `ErrUndefined`. -/
theorem asGroupLoop_nest (ls : List Error) (g : List Error) (l0 : Error)
    (id : Nat) (msg : String) :
    Error.asGroupLoop g (l0.withWrapped (some (nestChain ls (.generic id msg)))) =
      g ++ chainLinks ls (.generic id msg) ++
        [ErrUndefined.Wrap (some (.generic id msg))] := by
  induction ls generalizing g l0 with
  | nil =>
    cases l0 with
    | mk c x f m n w =>
      simp only [nestChain, withWrapped_mk, Error.asGroupLoop]
      split
      · next hg => rw [appendOne_generic]; simp [chainLinks]
      · next we hg => simp [errAsError] at hg
  | cons l1 ls ih =>
    cases l0 with
    | mk c x f m n w =>
      simp only [nestChain, withWrapped_mk, Error.asGroupLoop]
      split
      · next hg => simp [errAsError] at hg
      · next we hg =>
          simp only [errAsError, Option.some.injEq] at hg
          subst hg
          rw [appendOne_error]
          · rw [ih]
            simp [chainLinks, nestChain]
          · rw [errAsGroup_withWrapped]
            exact errAsGroup_nestChain ls id msg

/-- C1, counterexample to the claim as stated: for the `Error` `e1` whose
wrap chain ends (immediately) in an opaque non-Error cause, `AsGroup()` does
NOT contain exactly the homogeneous `Error` links (`[e1]`): the terminal
non-Error cause is also included, wrapped under `ErrUndefined`, because the
loop in `AsGroup` appends `err.Wrapped` before checking whether it is an
`Error`. -/
theorem c1_claim_cex :
    Error.AsGroup (.mk "e1" zeroExtras 0 "m1" "ns" (some (.generic 0 "boom"))) ≠
      [.mk "e1" zeroExtras 0 "m1" "ns" (some (.generic 0 "boom"))] := by
  have hval :
      Error.AsGroup (.mk "e1" zeroExtras 0 "m1" "ns" (some (.generic 0 "boom"))) =
        [.mk "e1" zeroExtras 0 "m1" "ns" (some (.generic 0 "boom")),
         ErrUndefined.Wrap (some (.generic 0 "boom"))] := by
    show Error.asGroupLoop
        (ErrorGroup.appendOne []
          (.ofError (.mk "e1" zeroExtras 0 "m1" "ns" (some (.generic 0 "boom")))))
        (.mk "e1" zeroExtras 0 "m1" "ns" (some (.generic 0 "boom"))) = _
    rw [appendOne_error _ _ (by simp [errAsGroup])]
    have h2 := asGroupLoop_nest []
      [(.mk "e1" zeroExtras 0 "m1" "ns" (some (.generic 0 "boom")))]
      (.mk "e1" zeroExtras 0 "m1" "ns" none) 0 "boom"
    simpa [nestChain, withWrapped_mk, chainLinks] using h2
  rw [hval]
  simp

/-- C1 (amended): for every `Error` whose wrap chain consists of homogeneous
`Error` links ending in a terminal opaque (non-Error) cause, `AsGroup()`
returns a group whose elements are the `Error` links of the chain in
root-to-leaf order followed by one final element: the terminal non-Error
cause wrapped under `ErrUndefined` (the terminal cause IS included, in
normalized form). -/
theorem c1_asGroup_chain (l0 : Error) (ls : List Error) (id : Nat) (msg : String) :
    Error.AsGroup (l0.withWrapped (some (nestChain ls (.generic id msg)))) =
      chainLinks (l0 :: ls) (.generic id msg) ++
        [ErrUndefined.Wrap (some (.generic id msg))] := by
  show Error.asGroupLoop
      (ErrorGroup.appendOne [] (.ofError (l0.withWrapped (some (nestChain ls (.generic id msg))))))
      (l0.withWrapped (some (nestChain ls (.generic id msg)))) = _
  rw [appendOne_error _ _
    (by rw [errAsGroup_withWrapped]; exact errAsGroup_nestChain ls id msg)]
  rw [asGroupLoop_nest]
  simp [chainLinks]

/-- C4: for every non-zero `Error` `e` and non-nil error `err`,
`e.Wrap(err).Unwrap()` returns exactly `err`, and for every `Error` `e`,
`e.Wrap(nil)` returns `e` unchanged. -/
theorem c4_wrap_unwrap (e : Error) (err : GoError) (h : e.IsZero = false) :
    (e.Wrap (some err)).Unwrap = some err ∧ e.Wrap none = e := by
  constructor
  · cases e with
    | mk c x f m n w =>
      simp [Error.Wrap, Error.IsZero, withWrapped_mk, Error.Unwrap, Error.Wrapped]
  · rfl

/-- C4 witness: the theorem applied at a concrete input. -/
theorem c4_wrap_unwrap_witness :
    Error.IsZero ErrUndefined = false ∧
    ((ErrUndefined.Wrap (some (.generic 0 "x"))).Unwrap = some (.generic 0 "x") ∧
      ErrUndefined.Wrap none = ErrUndefined) :=
  ⟨rfl, c4_wrap_unwrap ErrUndefined (.generic 0 "x") rfl⟩

/-- C7: `ErrorGroup.Unwrap` returns nil on a nil or empty group, the single
element itself (not a chain wrapper) on a one-element group, and a chain
over the element sequence on a group with two or more elements (the source
takes a shallow copy of the slice first; in this value model, the list value
held by the chain is a snapshot by construction). -/
theorem c7_group_unwrap (fmt : List Error → String) (a b : Error) (rest : List Error) :
    ErrorGroup.Unwrap none = none ∧
    ErrorGroup.Unwrap (some ⟨[], fmt⟩) = none ∧
    ErrorGroup.Unwrap (some ⟨[a], fmt⟩) = some (.ofError a) ∧
    ErrorGroup.Unwrap (some ⟨a :: b :: rest, fmt⟩) = some (.ofChain (a :: b :: rest)) :=
  ⟨rfl, rfl, rfl, rfl⟩

/-- C8: for the chain over `[a, b]`, the first `Unwrap()` returns the chain
over `[b]`, whose own `Unwrap()` signals no further cause; and `Is`-style
matching against any chain inspects only the head element at each step
(the result on `a :: rest` coincides with the result on `[a]`, for every
tail). -/
theorem c8_chain_steps (a b : Error) (rest : List Error) (target : GoError) :
    errorChain.Unwrap [a, b] = some (.ofChain [b]) ∧
    errorChain.Unwrap [b] = none ∧
    errorChain.Is (a :: rest) target = errorChain.Is [a] target :=
  ⟨rfl, rfl, rfl⟩

/-- C2, counterexample to the claim as stated: `Error()` is NOT defined on a
nil group reference: the method body dereferences the receiver
(`g.Formatter`) without a nil check, so the call panics (modelled as
`none`), rather than returning the empty string. -/
theorem c2_claim_cex : ErrorGroup.ErrorString none ≠ some "" := by
  simp [ErrorGroup.ErrorString]

/-- C2 (amended): on a non-nil group holding zero elements (with the
default formatter installed by `NewErrorGroup`), `Error()` returns the
empty string, `ErrorOrNil()` returns nil and `Empty()` returns true;
`ErrorOrNil()` and `Empty()` are additionally nil-receiver-safe (returning
nil and true on a nil group reference), but `Error()` on a nil reference
panics. -/
theorem c2_empty_group (g : ErrorGroupS)
    (hf : g.Formatter = ErrorGroupFormatterDefault) (he : g.Errors = []) :
    ErrorGroup.ErrorString (some g) = some "" ∧
    ErrorGroup.ErrorOrNil (some g) = none ∧
    ErrorGroup.Empty (some g) = true ∧
    ErrorGroup.ErrorOrNil none = none ∧
    ErrorGroup.Empty none = true ∧
    ErrorGroup.ErrorString none = none := by
  refine ⟨?_, ?_, ?_, rfl, rfl, rfl⟩
  · simp [ErrorGroup.ErrorString, hf, he, ErrorGroupFormatterDefault]
  · simp [ErrorGroup.ErrorOrNil, he]
  · simp [ErrorGroup.Empty, he]

/-- C2 witness: the theorem applied at a concrete empty group. -/
theorem c2_empty_group_witness :
    ErrorGroupS.Formatter ⟨[], ErrorGroupFormatterDefault⟩ = ErrorGroupFormatterDefault ∧
    ErrorGroupS.Errors ⟨[], ErrorGroupFormatterDefault⟩ = [] ∧
    ErrorGroup.ErrorString (some ⟨[], ErrorGroupFormatterDefault⟩) = some "" ∧
    ErrorGroup.ErrorOrNil (some ⟨[], ErrorGroupFormatterDefault⟩) = none ∧
    ErrorGroup.Empty (some ⟨[], ErrorGroupFormatterDefault⟩) = true ∧
    ErrorGroup.ErrorOrNil none = none ∧
    ErrorGroup.Empty none = true ∧
    ErrorGroup.ErrorString none = none := by
  have h := c2_empty_group ⟨[], ErrorGroupFormatterDefault⟩ rfl rfl
  exact ⟨rfl, rfl, h.1, h.2.1, h.2.2.1, h.2.2.2.1, h.2.2.2.2.1, h.2.2.2.2.2⟩

/-- C10: `Equal` ignores the wrapped cause and the tags: wrapping any
non-nil error, or attaching any tags, never changes an `Error`'s
`Equal`-identity. -/
theorem c10_equal_ignores_wrap_tags (e : Error) (err : GoError)
    (tags : List String) (h : e.IsZero = false) :
    (e.Wrap (some err)).Equal e = true ∧ (e.WithTag tags).Equal e = true := by
  cases e with
  | mk c x f m n w =>
    constructor
    · simp [Error.Wrap, Error.IsZero, withWrapped_mk, Error.Equal,
        Error.Code, Error.Message, Error.Namespace, Error.Flags, Error.Extras]
    · simp [Error.WithTag, ErrorExtras.WithTag, Error.Equal,
        Error.Code, Error.Message, Error.Namespace, Error.Flags, Error.Extras]

/-- C10 witness: the theorem applied at a concrete input. -/
theorem c10_equal_ignores_wrap_tags_witness :
    Error.IsZero ErrUndefined = false ∧
    ((ErrUndefined.Wrap (some (.generic 1 "w"))).Equal ErrUndefined = true ∧
      (ErrUndefined.WithTag ["t"]).Equal ErrUndefined = true) :=
  ⟨rfl, c10_equal_ignores_wrap_tags ErrUndefined (.generic 1 "w") ["t"] rfl⟩

/-- C3 (code bug): the failing input evaluated on the code.  The receiver is
the zero `Error` and the wrapped error carries the `Error` identity
`e2 = {Code: "e2", Message: "m2", Namespace: "ns"}`.  `IsZero` returns
`false` even on the zero value (its `reflect.DeepEqual(e, new(Error))`
compares an `Error` value against a `*Error` pointer, which always differ in
dynamic type), so `Wrap` never takes the identity-adoption branch and the
result is not `Equal` to `e2` — contradicting both the claim and the
documentation comments on `Wrap` and `IsZero` in the source. -/
theorem c3_code_bug_eval :
    Error.IsZero (.mk "" zeroExtras 0 "" "" none) = false ∧
    Error.Equal
      (Error.Wrap (.mk "" zeroExtras 0 "" "" none)
        (some (.ofError (.mk "e2" zeroExtras 0 "m2" "ns" none))))
      (.mk "e2" zeroExtras 0 "m2" "ns" none) = false := by
  constructor
  · rfl
  · simp [Error.Wrap, Error.IsZero, withWrapped_mk, Error.Equal,
      Error.Code, Error.Message, Error.Namespace, Error.Flags, Error.Extras]

/-- `Append`'s loop body on a `*ErrorGroup` value: its elements are
flattened in via the recursive append. -/
theorem appendOne_group (acc : List Error) (i : Nat) (ges : List Error) :
    ErrorGroup.appendOne acc (.ofGroup i ges) = ErrorGroup.appendErrors acc ges := by
  simp only [ErrorGroup.appendOne]
  split
  · next ges2 hg =>
      simp only [errAsGroup, Option.some.injEq] at hg
      subst hg; rfl
  · next hg => simp [errAsGroup] at hg

/-- `Append`'s loop body on a boxed `Error` whose wrapped chain carries a
`*ErrorGroup`: `errors.As` finds the nested group, so its elements are
flattened in and the `Error` itself is discarded. -/
theorem appendOne_error_group (acc : List Error) (e : Error) (ges : List Error)
    (h : errAsGroup (.ofError e) = some ges) :
    ErrorGroup.appendOne acc (.ofError e) = ErrorGroup.appendErrors acc ges := by
  simp only [ErrorGroup.appendOne]
  split
  · next ges2 hg =>
      rw [h, Option.some.injEq] at hg
      subst hg; rfl
  · next hg =>
      rw [h] at hg
      exact Option.noConfusion hg

/-- C5, counterexample to the claim as stated: an `Error` whose wrapped
cause is a `*ErrorGroup` (present, and not itself an `Error` value) is NOT
copied by reference: `Copy` runs `errors.As`, which walks into the group and
extracts its head element, and the copy's `Wrapped` field is replaced by a
deep copy of that extracted `Error`. -/
theorem c5_claim_cex :
    (Error.Copy (.mk "e5" zeroExtras 0 "m5" "ns"
        (some (.ofGroup 3 [.mk "x" zeroExtras 0 "mx" "ns" none])))).Wrapped ≠
      some (.ofGroup 3 [.mk "x" zeroExtras 0 "mx" "ns" none]) := by
  have hx : Error.Copy (.mk "x" zeroExtras 0 "mx" "ns" none) =
      .mk "x" zeroExtras 0 "mx" "ns" none := by
    simp [Error.Copy]
  have hval : Error.Copy (.mk "e5" zeroExtras 0 "m5" "ns"
        (some (.ofGroup 3 [.mk "x" zeroExtras 0 "mx" "ns" none]))) =
      .mk "e5" zeroExtras 0 "m5" "ns"
        (some (.ofError (.mk "x" zeroExtras 0 "mx" "ns" none))) := by
    simp only [Error.Copy]
    split
    · next we hg =>
        simp only [errAsError, List.head?, Option.some.injEq] at hg
        subst hg
        rw [hx]
    · next hg => simp [errAsError] at hg
  rw [hval]
  simp [Error.Wrapped]

/-- C5 (amended): for every `Error` whose wrapped cause is present but
carries no extractable `Error` identity (an opaque external cause, or an
empty group or chain — `errors.As` fails), `Copy` preserves the `Wrapped`
reference, returning the value unchanged; causes from which `errors.As` can
extract an `Error` (including group/chain causes) are instead replaced by a
deep copy of the extracted `Error`. -/
theorem c5_copy_opaque_cause (e : Error) (w : GoError)
    (h1 : e.Wrapped = some w) (h2 : errAsError w = none) :
    e.Copy = e := by
  cases e with
  | mk c x f m n w0 =>
    simp only [Error.Wrapped] at h1
    subst h1
    simp only [Error.Copy]
    split
    · next we hg =>
        rw [h2] at hg
        exact Option.noConfusion hg
    · rfl

/-- C5 witness: the theorem applied at a concrete input with an opaque
wrapped cause. -/
theorem c5_copy_opaque_cause_witness :
    Error.Wrapped (.mk "a" zeroExtras 0 "ma" "ns" (some (.generic 9 "g"))) =
      some (.generic 9 "g") ∧
    errAsError (.generic 9 "g") = none ∧
    Error.Copy (.mk "a" zeroExtras 0 "ma" "ns" (some (.generic 9 "g"))) =
      .mk "a" zeroExtras 0 "ma" "ns" (some (.generic 9 "g")) :=
  ⟨rfl, rfl, c5_copy_opaque_cause _ (.generic 9 "g") rfl rfl⟩

/-- C6, counterexample to the claim as stated: appending a group holding
`[a, b]` into a group holding `[c]` does NOT always yield `[c, a, b]`.  When
`a`'s own wrapped chain carries a `*ErrorGroup` (here one holding the single
element `x`), the `errors.As` check inside `Append` finds that nested group
and flattens its elements in, discarding `a` itself: the result is
`[c, x, b]`. -/
theorem c6_claim_cex :
    ErrorGroup.Append [.mk "c" zeroExtras 0 "mc" "ns" none]
        [some (.ofGroup 1
          [.mk "a" zeroExtras 0 "ma" "ns"
            (some (.ofGroup 0 [.mk "x" zeroExtras 0 "mx" "ns" none])),
           .mk "b" zeroExtras 0 "mb" "ns" none])] ≠
      [.mk "c" zeroExtras 0 "mc" "ns" none,
       .mk "a" zeroExtras 0 "ma" "ns"
         (some (.ofGroup 0 [.mk "x" zeroExtras 0 "mx" "ns" none])),
       .mk "b" zeroExtras 0 "mb" "ns" none] := by
  have hga : errAsGroup (.ofError (.mk "a" zeroExtras 0 "ma" "ns"
      (some (.ofGroup 0 [.mk "x" zeroExtras 0 "mx" "ns" none])))) =
      some [.mk "x" zeroExtras 0 "mx" "ns" none] := by
    simp [errAsGroup]
  have hgx : errAsGroup (.ofError (.mk "x" zeroExtras 0 "mx" "ns" none)) = none := by
    simp [errAsGroup]
  have hgb : errAsGroup (.ofError (.mk "b" zeroExtras 0 "mb" "ns" none)) = none := by
    simp [errAsGroup]
  have hval :
      ErrorGroup.Append [.mk "c" zeroExtras 0 "mc" "ns" none]
          [some (.ofGroup 1
            [.mk "a" zeroExtras 0 "ma" "ns"
              (some (.ofGroup 0 [.mk "x" zeroExtras 0 "mx" "ns" none])),
             .mk "b" zeroExtras 0 "mb" "ns" none])] =
        [.mk "c" zeroExtras 0 "mc" "ns" none,
         .mk "x" zeroExtras 0 "mx" "ns" none,
         .mk "b" zeroExtras 0 "mb" "ns" none] := by
    simp only [ErrorGroup.Append]
    rw [appendOne_group]
    simp only [ErrorGroup.appendErrors]
    rw [appendOne_error_group _ _ _ hga]
    simp only [ErrorGroup.appendErrors]
    rw [appendOne_error _ _ hgx]
    rw [appendOne_error _ _ hgb]
    simp
  rw [hval]
  simp

/-- C6 (amended): appending a group holding `[a, b]` into a group holding
`[c]` yields exactly `[c, a, b]` (one level flattened, insertion order
preserved) provided neither `a` nor `b` carries a `*ErrorGroup` in its own
wrapped chain (i.e. the `errors.As` group-extraction inside `Append` fails
on them). -/
theorem c6_append_flattens (c a b : Error) (i : Nat)
    (ha : errAsGroup (.ofError a) = none) (hb : errAsGroup (.ofError b) = none) :
    ErrorGroup.Append [c] [some (.ofGroup i [a, b])] = [c, a, b] := by
  simp only [ErrorGroup.Append]
  rw [appendOne_group]
  simp only [ErrorGroup.appendErrors]
  rw [appendOne_error _ _ ha]
  rw [appendOne_error _ _ hb]
  simp

/-- C6 witness: the theorem applied at concrete inputs. -/
theorem c6_append_flattens_witness :
    errAsGroup (.ofError (.mk "a" zeroExtras 0 "ma" "ns" none)) = none ∧
    errAsGroup (.ofError (.mk "b" zeroExtras 0 "mb" "ns" none)) = none ∧
    ErrorGroup.Append [.mk "c" zeroExtras 0 "mc" "ns" none]
        [some (.ofGroup 1
          [.mk "a" zeroExtras 0 "ma" "ns" none,
           .mk "b" zeroExtras 0 "mb" "ns" none])] =
      [.mk "c" zeroExtras 0 "mc" "ns" none,
       .mk "a" zeroExtras 0 "ma" "ns" none,
       .mk "b" zeroExtras 0 "mb" "ns" none] :=
  ⟨by simp [errAsGroup], by simp [errAsGroup],
   c6_append_flattens _ _ _ 1 (by simp [errAsGroup]) (by simp [errAsGroup])⟩

/-- Wrapping any value (or nil) under the shared `ErrUndefined` sentinel
yields an `Error` that is `Equal` to the sentinel (`Equal` ignores the
wrapped cause). -/
theorem wrap_undefined_equal (t : Option GoError) :
    (ErrUndefined.Wrap t).Equal ErrUndefined = true := by
  cases t with
  | none => rfl
  | some w =>
    simp [Error.Wrap, Error.IsZero, ErrUndefined, withWrapped_mk, Error.Equal,
      Error.Code, Error.Message, Error.Namespace, Error.Flags, Error.Extras]

/-- C9: `Translate` preserves the length (and operates index-by-index, so
also the order) of the group's element sequence; and when the translation
returns, for every element, a value carrying no extractable `Error`
identity (including nil), every element of the translated group is the
translation result wrapped under the shared `ErrUndefined` sentinel, and in
particular every element is `Equal` to the sentinel. -/
theorem c9_translate (translate : Error → Option GoError) (es : List Error) :
    (ErrorGroup.Translate translate es).length = es.length ∧
    ((∀ x ∈ es, ∀ t, translate x = some t → errAsError t = none) →
      ErrorGroup.Translate translate es =
        es.map (fun x => ErrUndefined.Wrap (translate x)) ∧
      ∀ y ∈ ErrorGroup.Translate translate es, y.Equal ErrUndefined = true) := by
  constructor
  · induction es with
    | nil => rfl
    | cons x rest ih => simp [ErrorGroup.Translate, ih]
  · intro h
    have hmap : ErrorGroup.Translate translate es =
        es.map (fun x => ErrUndefined.Wrap (translate x)) := by
      induction es with
      | nil => rfl
      | cons x rest ih =>
        have hx := h x (by simp)
        have hrest := ih (fun y hy t ht => h y (by simp [hy]) t ht)
        cases htx : translate x with
        | none => simp [ErrorGroup.Translate, htx, hrest]
        | some t => simp [ErrorGroup.Translate, htx, hx t htx, hrest]
    refine ⟨hmap, ?_⟩
    intro y hy
    rw [hmap] at hy
    simp only [List.mem_map] at hy
    obtain ⟨x, _, rfl⟩ := hy
    exact wrap_undefined_equal _

/-- C9 witness: the theorem applied at a concrete input whose translation
always returns an opaque external error. -/
theorem c9_translate_witness :
    (∀ x ∈ [ErrUndefined], ∀ t : GoError,
      some (GoError.generic 5 "z") = some t → errAsError t = none) ∧
    (ErrorGroup.Translate (fun _ => some (.generic 5 "z")) [ErrUndefined]).length = 1 ∧
    ErrorGroup.Translate (fun _ => some (.generic 5 "z")) [ErrUndefined] =
      [ErrUndefined].map (fun x => ErrUndefined.Wrap (some (.generic 5 "z"))) ∧
    ∀ y ∈ ErrorGroup.Translate (fun _ => some (.generic 5 "z")) [ErrUndefined],
      y.Equal ErrUndefined = true := by
  have h := c9_translate (fun _ => some (.generic 5 "z")) [ErrUndefined]
  have hpre : ∀ x ∈ [ErrUndefined], ∀ t : GoError,
      some (GoError.generic 5 "z") = some t → errAsError t = none := by
    intro x hx t ht; cases ht; rfl
  have h2 := h.2 hpre
  exact ⟨hpre, h.1, h2.1, h2.2⟩

end Stdlib
